import Mathlib

/-!
Shallow embedding of the job dispatch engine of the `parallel` repository
(Go sources: worker.go, run.go, rate.go, argparser.go, and the generic rate
sampler), together with theorems settling the frozen claims about it.

Conventions of the embedding:
* Go `time.Duration` / `time.Time` values are modelled as `ℤ` (nanoseconds);
  none of the claims exercise 64-bit overflow, so no wraparound is applied.
* Go `float64` intermediates are modelled as `ℚ`; every float operation a
  claim touches is exact at the claimed inputs, and the Go conversion
  `time.Duration(f)` / `int64(f)` (truncation toward zero) is modelled by
  `goTruncFloatToInt`.
* Fallible Go code (runtime division by zero, `error` returns) is modelled
  with `Option` / `Except`.
-/

namespace Parallel

/-- Models the Go conversion of a `float64` to an integer type
(`time.Duration(f)` / `int64(f)`): truncation toward zero. -/
def goTruncFloatToInt (q : ℚ) : ℤ :=
  if q < 0 then ⌈q⌉ else ⌊q⌋

/-! ### Outcome classification (worker.go) -/

/-- The three completion outcomes recorded by the worker (spec §3
`ExecutionOutcome`; worker.go lines 265-301). -/
inductive ExecutionOutcome
  | succeeded
  | failed
  | aborted
deriving DecidableEq, Repr

/-- The two error states a Go `context.Context` can report. -/
inductive CtxErrKind
  | canceled
  | deadlineExceeded
deriving DecidableEq, Repr

/-- The error state of the child context `subCtx` at classification time
(worker.go lines 226-229).  `subCtx` starts from `context.Background()` and is
wrapped with a timeout when `opts.Timeout` is set; crucially it is NOT derived
from the engine context, so the user-cancellation state of the engine context
(`userCancelled`) has no influence on it.  `subCancel` is only invoked after
classification (worker.go lines 302-304), so `context.Canceled` is impossible
here. -/
def subCtxErrAtExit (timeoutSet timeoutExpired : Bool) (_userCancelled : Bool) :
    Option CtxErrKind :=
  if timeoutSet && timeoutExpired then some .deadlineExceeded else none

/-- worker.go line 282:
`realFailure := subCtx.Err() == nil || errors.Is(subCtx.Err(), context.DeadlineExceeded)`. -/
def realFailure (e : Option CtxErrKind) : Bool :=
  match e with
  | none => true
  | some .deadlineExceeded => true
  | some .canceled => false

/-- The worker's outcome classification (worker.go lines 265-301): exit status
zero is a success; otherwise the job is counted failed when `realFailure`
holds of the child context's error, and aborted otherwise. -/
def classifyOutcome (exitNonZero timeoutSet timeoutExpired userCancelled : Bool) :
    ExecutionOutcome :=
  if !exitNonZero then .succeeded
  else if realFailure (subCtxErrAtExit timeoutSet timeoutExpired userCancelled) then .failed
  else .aborted

/-- The classification described by the spec (§3): nonzero exit is Failed when
no user-initiated cancellation occurred or the deadline was exceeded, and
Aborted when it was caused by user-initiated cancellation before completion. -/
def specClassifyOutcome (exitNonZero timeoutExpired userCancelled : Bool) :
    ExecutionOutcome :=
  if !exitNonZero then .succeeded
  else if !userCancelled || timeoutExpired then .failed
  else .aborted

/-! ### The ETC estimator (rate.go) -/

/-- The `etc` state (rate.go lines 10-16): configured concurrency, minimum
inter-job duration, and the per-outcome duration lists (nanoseconds). -/
structure Etc where
  concurrency : ℤ
  minimumDuration : ℤ
  successes : List ℤ
  failures : List ℤ
deriving DecidableEq, Repr

/-- rate.go lines 102-106: `e.successes = append(e.successes, d)`. -/
def Etc.AddSuccess (e : Etc) (d : ℤ) : Etc :=
  { e with successes := e.successes ++ [d] }

/-- rate.go lines 108-112, exactly as written:
`e.successes = append(e.failures, d)` — the result of appending `d` to the
failures list is assigned to the `successes` field. -/
def Etc.AddFailure (e : Etc) (d : ℤ) : Etc :=
  { e with successes := e.failures ++ [d] }

/-- Lines 48-75 of rate.go: the weighted-mean step of `Estimate`, in
nanoseconds.  Returns `some 0` when there are no samples (line 48-50).
Returns `none` when `len(successes) = 0` but failures exist, mirroring the
unguarded integer division by zero at line 69 (a Go runtime failure).
`meanSuccess` and `meanFailure` are `time.Duration` (integer) divisions;
`time.Duration(pSuccess)` and `time.Duration(1-pSuccess)` truncate the
float probabilities toward zero (line 75). -/
def Etc.estimateWeightedMeanNs (e : Etc) : Option ℤ :=
  if e.failures.length + e.successes.length = 0 then some 0
  else if e.successes.length = 0 then none
  else
    let pSuccess : ℚ :=
      (e.successes.length : ℚ) / ((e.successes.length : ℚ) + (e.failures.length : ℚ))
    let meanSuccess : ℤ := (e.successes.sum).tdiv (e.successes.length : ℤ)
    let meanFailure : ℤ :=
      if 0 < e.failures.length then (e.failures.sum).tdiv (e.failures.length : ℤ) else 0
    some (meanSuccess * goTruncFloatToInt pSuccess +
      meanFailure * goTruncFloatToInt (1 - pSuccess))

/-- The weighted mean of the spec's sentence (§4.1): with
`p = successes / (successes + failures)`, the value
`p * mean(success) + (1 - p) * mean(failure)`, in exact rational arithmetic
over nanoseconds. -/
def specWeightedMeanNs (successes failures : List ℤ) : ℚ :=
  let p : ℚ := (successes.length : ℚ) / ((successes.length : ℚ) + (failures.length : ℚ))
  p * ((successes.sum : ℚ) / (successes.length : ℚ)) +
    (1 - p) * ((failures.sum : ℚ) / (failures.length : ℚ))

/-! ### Stats counters and the run-level counter machine (worker.go, run.go) -/

/-- The `Stats` record (worker.go lines 72-86).  Counters are `atomic.Int64`,
modelled as `ℤ` (no claim exercises 64-bit wraparound).  `queueEmptyTime` is
a `time.Time`; `none` models Go's zero time. -/
structure Stats where
  Queued : ℤ
  Skipped : ℤ
  InProgress : ℤ
  Succeeded : ℤ
  Failed : ℤ
  Aborted : ℤ
  dirty : Bool
  Total : ℤ
  queueEmptyTime : Option ℤ
  since : ℤ
  etc : Etc
deriving DecidableEq, Repr

/-- worker.go line 132: a fresh `Stats` with all counters zero. -/
def NewStats (concurrency minimumDuration since : ℤ) : Stats :=
  { Queued := 0, Skipped := 0, InProgress := 0, Succeeded := 0, Failed := 0
    Aborted := 0, dirty := false, Total := 0, queueEmptyTime := none
    since := since, etc := ⟨concurrency, minimumDuration, [], []⟩ }

/-- worker.go lines 88-95: swap `Queued` to 0, remember the old value, stamp
`queueEmptyTime` when the old value was nonzero, and set the dirty flag. -/
def Stats.ZeroQueued (s : Stats) (now : ℤ) : Stats × ℤ :=
  let old := s.Queued
  ({ s with Queued := 0
            queueEmptyTime := if old ≠ 0 then some now else s.queueEmptyTime
            dirty := true }, old)

/-- worker.go lines 97-102: increment `Queued`; when it rises from zero, clear
`queueEmptyTime`; set the dirty flag. -/
def Stats.AddQueued (s : Stats) : Stats :=
  { s with Queued := s.Queued + 1
           queueEmptyTime := if s.Queued + 1 = 1 then none else s.queueEmptyTime
           dirty := true }

/-- worker.go lines 104-109: decrement `Queued`; when it falls to zero, stamp
`queueEmptyTime`; set the dirty flag. -/
def Stats.SubQueued (s : Stats) (now : ℤ) : Stats :=
  { s with Queued := s.Queued - 1
           queueEmptyTime := if s.Queued - 1 = 0 then some now else s.queueEmptyTime
           dirty := true }

/-- worker.go lines 111-116. -/
def Stats.AddSucceeded (s : Stats) (d : ℤ) : Stats :=
  { s with Succeeded := s.Succeeded + 1, InProgress := s.InProgress - 1
           etc := s.etc.AddSuccess d, dirty := true }

/-- worker.go lines 118-123. -/
def Stats.AddAborted (s : Stats) (d : ℤ) : Stats :=
  { s with Aborted := s.Aborted + 1, InProgress := s.InProgress - 1
           etc := s.etc.AddFailure d, dirty := true }

/-- worker.go lines 125-130. -/
def Stats.AddFailed (s : Stats) (d : ℤ) : Stats :=
  { s with Failed := s.Failed + 1, InProgress := s.InProgress - 1
           etc := s.etc.AddFailure d, dirty := true }

/-- The stage-1 interrupt action (run.go lines 76-89):
`stats.Total.Add(-1 * stats.ZeroQueued())`, `stats.SetDirty()`, then the
engine context is cancelled with cause "user-initiated shutdown" (run.go
line 85).  Returns the updated stats and the cancellation cause. -/
def stage1 (s : Stats) (now : ℤ) : Stats × String :=
  let zq := s.ZeroQueued now
  ({ zq.1 with Total := zq.1.Total - zq.2, dirty := true }, "user-initiated shutdown")

/-- The counter-relevant atomic transitions of one run, in source order:
`renderFail` is the ingestor's `stats.AddFailed(0)` on a template render
failure (run.go lines 180-183); `skip` is the cache-dedup `Skipped.Add(1)`
(run.go lines 196 and 211); `enqueue` is `Total.Add(1); AddQueued()` after a
successful channel send (run.go lines 227-228); `start` is the worker's
`InProgress.Add(1); SubQueued()` (worker.go lines 253-254); `finish` is the
worker's classification step calling `AddSucceeded` / `AddFailed` /
`AddAborted` (worker.go lines 265-301); `interrupt` is the stage-1 action
(run.go lines 76-89). -/
inductive Event
  | renderFail
  | skip
  | enqueue
  | start (now : ℤ)
  | finish (o : ExecutionOutcome) (d : ℤ)
  | interrupt (now : ℤ)
deriving DecidableEq, Repr

/-- Apply one event to the counters. -/
def stepEvent (s : Stats) : Event → Stats
  | .renderFail => s.AddFailed 0
  | .skip => { s with Skipped := s.Skipped + 1 }
  | .enqueue => (Stats.AddQueued { s with Total := s.Total + 1 })
  | .start now => (Stats.SubQueued { s with InProgress := s.InProgress + 1 } now)
  | .finish .succeeded d => s.AddSucceeded d
  | .finish .failed d => s.AddFailed d
  | .finish .aborted d => s.AddAborted d
  | .interrupt now => (stage1 s now).1

/-- The counters after a run consisting of the given event trace. -/
def runEvents (concurrency minimumDuration since : ℤ) (t : List Event) : Stats :=
  t.foldl stepEvent (NewStats concurrency minimumDuration since)

/-- Event class predicates used for counting. -/
def Event.isEnqueue : Event → Bool
  | .enqueue => true
  | _ => false

/-- True exactly on `start` events. -/
def Event.isStart : Event → Bool
  | .start _ => true
  | _ => false

/-- True exactly on `finish` events. -/
def Event.isFinish : Event → Bool
  | .finish _ _ => true
  | _ => false

/-- True exactly on `renderFail` events. -/
def Event.isRenderFail : Event → Bool
  | .renderFail => true
  | _ => false

/-- True exactly on `skip` events. -/
def Event.isSkip : Event → Bool
  | .skip => true
  | _ => false

/-- True exactly on `interrupt` events. -/
def Event.isInterrupt : Event → Bool
  | .interrupt _ => true
  | _ => false

/-- A trace is well-formed when, along every prefix, no more jobs have been
started than enqueued and no more finished than started: a worker only starts
a job it received from the sorted channel, and only finishes a job it
started. -/
def validFrom (enq started fin : ℕ) : List Event → Bool
  | [] => true
  | e :: rest =>
    let enq' := if e.isEnqueue then enq + 1 else enq
    let started' := if e.isStart then started + 1 else started
    let fin' := if e.isFinish then fin + 1 else fin
    started' ≤ enq' && fin' ≤ started' && validFrom enq' started' fin' rest

/-- Well-formedness of a whole trace, from the empty initial state. -/
def ValidTrace (t : List Event) : Prop :=
  validFrom 0 0 0 t = true

/-- Normal termination of a run: a well-formed trace, no user interrupt, and
every enqueued job finished. -/
def NormalTermination (t : List Event) : Prop :=
  ValidTrace t ∧ t.countP Event.isInterrupt = 0 ∧
    t.countP Event.isFinish = t.countP Event.isEnqueue

instance (t : List Event) : Decidable (ValidTrace t) := by
  unfold ValidTrace
  infer_instance

instance (t : List Event) : Decidable (NormalTermination t) := by
  unfold NormalTermination
  infer_instance

/-! ### Rendered commands and the cache marker (worker.go, argparser.go) -/

/-- Modelled from the spec: the `RenderedCommand` struct declaration itself is
not among the provided sources (the provided argparser.go belongs to a variant
where it is a bare `[]string`), but spec §3 and the uses in worker.go
(`cmd.command`, `cmd.input`) fix it as an ordered sequence of argument strings
plus an optional stdin payload string. -/
structure RenderedCommand where
  command : List String
  input : String
deriving DecidableEq, Repr

/-- The UTF-8 bytes of a Go string (Go strings are byte slices; the rendered
arguments are UTF-8 text). -/
def strBytes (s : String) : List ℕ :=
  (s.data.map (fun c => (String.utf8EncodeChar c).map (fun b => b.toNat))).flatten

/-- Reduce a value to 32 bits. -/
def w32 (n : ℕ) : ℕ := n % 2 ^ 32

/-- Rotate a 32-bit value right by `n`. -/
def rotr32 (x n : ℕ) : ℕ := w32 ((x >>> n) ||| (x <<< (32 - n)))

/-- SHA-256 choice function. -/
def shaCh (x y z : ℕ) : ℕ := (x &&& y) ^^^ ((x ^^^ (2 ^ 32 - 1)) &&& z)

/-- SHA-256 majority function. -/
def shaMaj (x y z : ℕ) : ℕ := (x &&& y) ^^^ (x &&& z) ^^^ (y &&& z)

/-- SHA-256 Σ₀. -/
def shaBigSigma0 (x : ℕ) : ℕ := rotr32 x 2 ^^^ rotr32 x 13 ^^^ rotr32 x 22

/-- SHA-256 Σ₁. -/
def shaBigSigma1 (x : ℕ) : ℕ := rotr32 x 6 ^^^ rotr32 x 11 ^^^ rotr32 x 25

/-- SHA-256 σ₀. -/
def shaSmallSigma0 (x : ℕ) : ℕ := rotr32 x 7 ^^^ rotr32 x 18 ^^^ (x >>> 3)

/-- SHA-256 σ₁. -/
def shaSmallSigma1 (x : ℕ) : ℕ := rotr32 x 17 ^^^ rotr32 x 19 ^^^ (x >>> 10)

/-- Trial-division primality test (used only to generate the SHA-256
constants). -/
def isPrimeNat (n : ℕ) : Bool :=
  2 ≤ n && ((List.range n).drop 2).all (fun d => n % d ≠ 0)

/-- The first `k` prime numbers. -/
def firstPrimes (k : ℕ) : List ℕ :=
  ((List.range 2000).filter isPrimeNat).take k

/-- Binary-search step for the integer cube root. -/
def natCbrtAux (n : ℕ) : ℕ → ℕ → ℕ → ℕ
  | 0, lo, _ => lo
  | fuel + 1, lo, hi =>
    if hi ≤ lo + 1 then lo
    else
      let mid := (lo + hi) / 2
      if mid ^ 3 ≤ n then natCbrtAux n fuel mid hi else natCbrtAux n fuel lo mid

/-- The largest `r` with `r ^ 3 ≤ n`. -/
def natCbrt (n : ℕ) : ℕ := natCbrtAux n 130 0 (n + 1)

/-- The SHA-256 round constants (FIPS 180-4 §4.2.2): the first 32 fractional
bits of the cube roots of the first 64 primes. -/
def shaK : List ℕ :=
  (firstPrimes 64).map (fun p => natCbrt (p * 2 ^ 96) % 2 ^ 32)

/-- The SHA-256 initial hash value (FIPS 180-4 §5.3.3): the first 32
fractional bits of the square roots of the first 8 primes. -/
def shaH0 : List ℕ :=
  (firstPrimes 8).map (fun p => Nat.sqrt (p * 2 ^ 64) % 2 ^ 32)

/-- Group a byte list into big-endian 32-bit words. -/
def bytesToWordsBE : List ℕ → List ℕ
  | b0 :: b1 :: b2 :: b3 :: rest => (((b0 * 256 + b1) * 256 + b2) * 256 + b3) :: bytesToWordsBE rest
  | _ => []

/-- The big-endian `k`-byte encoding of `n`. -/
def natToBytesBE (k n : ℕ) : List ℕ :=
  match k with
  | 0 => []
  | k + 1 => natToBytesBE k (n / 256) ++ [n % 256]

/-- SHA-256 message padding: a `0x80` byte, zeros to 56 mod 64, then the
64-bit big-endian bit length. -/
def shaPad (msg : List ℕ) : List ℕ :=
  msg ++ [0x80] ++ List.replicate ((119 - msg.length % 64) % 64) 0 ++
    natToBytesBE 8 (8 * msg.length)

/-- Extend a message schedule by one word (FIPS 180-4 §6.2.2 step 1). -/
def shaExtendOnce (ws : List ℕ) : List ℕ :=
  let n := ws.length
  ws ++ [w32 (shaSmallSigma1 (ws.getD (n - 2) 0) + ws.getD (n - 7) 0 +
    shaSmallSigma0 (ws.getD (n - 15) 0) + ws.getD (n - 16) 0)]

/-- Iterate the schedule extension. -/
def shaScheduleAux : ℕ → List ℕ → List ℕ
  | 0, ws => ws
  | k + 1, ws => shaScheduleAux k (shaExtendOnce ws)

/-- The 64-word message schedule from a 16-word chunk. -/
def shaSchedule (ws : List ℕ) : List ℕ := shaScheduleAux 48 ws

/-- One SHA-256 compression round on the 8-word working state. -/
def shaRound (st : List ℕ) (kw : ℕ × ℕ) : List ℕ :=
  match st with
  | [a, b, c, d, e, f, g, h] =>
    let t1 := w32 (h + shaBigSigma1 e + shaCh e f g + kw.1 + kw.2)
    let t2 := w32 (shaBigSigma0 a + shaMaj a b c)
    [w32 (t1 + t2), a, b, c, w32 (d + t1), e, f, g]
  | st => st

/-- Compress one 16-word chunk into the running hash. -/
def shaCompress (h ws : List ℕ) : List ℕ :=
  let fin := List.foldl shaRound h (shaK.zip (shaSchedule ws))
  (h.zip fin).map (fun p => w32 (p.1 + p.2))

/-- Split a padded message into 64-byte chunks. -/
def shaChunks : List ℕ → List (List ℕ)
  | [] => []
  | b :: rest => (b :: rest).take 64 :: shaChunks ((b :: rest).drop 64)
termination_by l => l.length
decreasing_by
  simp only [List.length_drop, List.length_cons]
  omega

/-- SHA-256 of a byte list, as 32 output bytes (the algorithm of Go's
crypto/sha256, FIPS 180-4). -/
def sha256 (msg : List ℕ) : List ℕ :=
  (((shaChunks (shaPad msg)).foldl (fun h chunk => shaCompress h (bytesToWordsBE chunk))
    shaH0).map (natToBytesBE 4)).flatten

/-- The lowercase hex digit for a value below 16 (as produced by Go's
`fmt.Sprintf` with the lowercase hex verb). -/
def hexDigit (n : ℕ) : Char :=
  if n < 10 then Char.ofNat (48 + n) else Char.ofNat (87 + n)

/-- Lowercase hex encoding of a byte list. -/
def hexOfBytes (bs : List ℕ) : String :=
  String.mk ((bs.map (fun b => [hexDigit (b / 16), hexDigit (b % 16)])).flatten)

/-- The byte stream fed to the hash by `Marker` (worker.go lines 60-70): each
argument followed by a tab, then the stdin payload when nonempty. -/
def markerStream (cmd : RenderedCommand) : List ℕ :=
  (cmd.command.foldl (fun acc arg => acc ++ strBytes arg ++ strBytes "\t") []) ++
    (if cmd.input ≠ "" then strBytes cmd.input else [])

/-- worker.go lines 60-70: the cache marker of a rendered command. -/
def Marker (cmd : RenderedCommand) : String :=
  hexOfBytes (sha256 (markerStream cmd))

/-- The marker preimage as the spec words it (§6 marker format): for each
argument, the argument then a tab byte, concatenated, then the stdin payload
if nonempty. -/
def specMarkerStream (cmd : RenderedCommand) : List ℕ :=
  ((cmd.command.map (fun arg => strBytes arg ++ [9])).flatten) ++
    (if cmd.input = "" then [] else strBytes cmd.input)

/-- The marker as the spec describes it: lowercase hex of the SHA-256 digest
of the spec's preimage. -/
def specMarker (cmd : RenderedCommand) : String :=
  hexOfBytes (sha256 (specMarkerStream cmd))

/-! ### The sorter (run.go) -/

/-- run.go lines 18-22. -/
structure UnsortedCommand where
  command : RenderedCommand
  timestamp : ℤ
  index : ℕ
deriving DecidableEq, Repr

/-- run.go lines 244-249: order by timestamp ascending, ties broken by index
ascending. -/
def lessUnsortedCommand (a b : UnsortedCommand) : Bool :=
  if a.timestamp = b.timestamp then decide (a.index < b.index)
  else decide (a.timestamp < b.timestamp)

/-- The reflexive closure of the btree order: `(timestamp, index)`
lexicographically. -/
def leUC (a b : UnsortedCommand) : Prop :=
  a.timestamp < b.timestamp ∨ (a.timestamp = b.timestamp ∧ a.index ≤ b.index)

instance : DecidableRel leUC := fun a b => by
  unfold leUC
  infer_instance

instance : IsTotal UnsortedCommand leUC := by
  refine ⟨fun a b => ?_⟩
  unfold leUC
  omega

instance : IsTrans UnsortedCommand leUC := by
  refine ⟨fun a b c hab hbc => ?_⟩
  unfold leUC at hab hbc ⊢
  omega

/-- The inserter's synthetic-timestamp assignment (run.go lines 280-284): a
zero timestamp is replaced by `minitime + 1 ns`, with `minitime` advancing
once per zero-timestamped item; nonzero timestamps pass through. -/
def assignTimestamps : ℤ → List UnsortedCommand → List UnsortedCommand
  | _, [] => []
  | minitime, uc :: rest =>
    if uc.timestamp = 0 then
      { uc with timestamp := minitime + 1 } :: assignTimestamps (minitime + 1) rest
    else
      uc :: assignTimestamps minitime rest

/-- The number of zero-timestamped (never-run) items. -/
def zcount (items : List UnsortedCommand) : ℕ :=
  items.countP (fun u => decide (u.timestamp = 0))

/-- Batch model of the sorter (run.go lines 251-365): every item is inserted
into the ordered tree (after synthetic-timestamp assignment) and the consumer
then repeatedly hands out `DeleteMin`, i.e. the delivery sequence is the
`(timestamp, index)`-sorted arrangement of the input. -/
def sorterDeliver (items : List UnsortedCommand) : List UnsortedCommand :=
  List.insertionSort leUC (assignTimestamps 0 items)

/-! ### The generic rate sampler (the `rate` ring buffer) -/

/-- A (value, timestamp) sample; values are the sampler's float type,
timestamps are nanoseconds. -/
structure Sample where
  value : ℚ
  timestamp : ℤ
deriving DecidableEq, Repr

/-- The ring-buffer state: a fixed-size sample slice and the `oldest` and
`next` cursors. -/
structure RateState where
  samples : List Sample
  capacity : ℕ
  oldest : ℕ
  next : ℕ
deriving DecidableEq, Repr

/-- A fresh sampler: `maxSamples` zero samples, both cursors at 0. -/
def NewRate (maxSamples : ℕ) : RateState :=
  { samples := List.replicate maxSamples ⟨0, 0⟩, capacity := maxSamples
    oldest := 0, next := 0 }

/-- `Insert` (replace-oldest-when-full): write the sample at `next`, advance
`oldest` when it would be overrun, advance `next`. -/
def RateState.Insert (l : RateState) (v : ℚ) (now : ℤ) : RateState :=
  { l with samples := l.samples.set l.next ⟨v, now⟩
           oldest := if l.oldest = (l.next + 1) % l.capacity then (l.oldest + 1) % l.capacity
             else l.oldest
           next := (l.next + 1) % l.capacity }

/-- `ETA` by linear extrapolation from the oldest and newest samples.  The Go
float arithmetic is modelled in `ℚ` and the final `time.Duration(T(period) *
scale)` conversion by truncation toward zero. -/
def RateState.ETA (l : RateState) (minimumSamples : ℤ) (target : ℚ) : Except String ℤ :=
  if minimumSamples < 2 then .error "minimum samples must be at least 2"
  else if l.oldest = l.next then .error "no sample data"
  else
    let nSamples : ℤ := ((l.next : ℤ) - (l.oldest : ℤ) + (l.capacity : ℤ)) % (l.capacity : ℤ)
    if nSamples < minimumSamples then .error "not enough samples"
    else
      let newest : ℕ := if l.next = 0 then l.capacity - 1 else l.next - 1
      let sNew := l.samples.getD newest ⟨0, 0⟩
      let sOld := l.samples.getD l.oldest ⟨0, 0⟩
      let change := sNew.value - sOld.value
      let period : ℤ := sNew.timestamp - sOld.timestamp
      if change = 0 then .error "no difference in sample values"
      else if target = sNew.value then .ok sNew.timestamp
      else if (decide (change > 0)) ≠ (decide (target > sNew.value)) then
        .error "change disagrees with target"
      else
        let scale := (target - sNew.value) / (sNew.value - sOld.value)
        .ok (sNew.timestamp + goTruncFloatToInt ((period : ℚ) * scale))

end Parallel

namespace Parallel

/-- C1: the worker, as written, can never classify a nonzero exit as Aborted:
the child context is detached from the engine context, so its error is `none`
or `deadlineExceeded`, making `realFailure` true on every nonzero exit.  A job
killed because the user cancelled the run (nonzero exit, no timeout, user
cancellation) is counted Failed by the code, while the claim (and the spec's
own comment at worker.go lines 280-281 and the log message at line 286)
requires Aborted. -/
theorem c1_classification_never_aborts :
    classifyOutcome true false false true = .failed ∧
    specClassifyOutcome true false true = .aborted ∧
    ∀ en ts te uc, classifyOutcome en ts te uc ≠ .aborted := by
  refine ⟨rfl, rfl, ?_⟩
  decide

/-- C3: at the claim's own example (one success of mean 10 s, one failure of
mean 20 s, hence `p = 1/2`), the code's weighted mean is 0 ns — because
`time.Duration(pSuccess)` truncates `1/2` to `0` — while the spec formula
gives 15 s.  The code's comment at rate.go line 74 ("weighted mean job
duration") shows the spec formula is the intent. -/
theorem c3_weighted_mean_truncated :
    Etc.estimateWeightedMeanNs ⟨10, 0, [10 * 10 ^ 9], [20 * 10 ^ 9]⟩ = some 0 ∧
    specWeightedMeanNs [10 * 10 ^ 9] [20 * 10 ^ 9] = 15 * 10 ^ 9 := by
  constructor
  · simp [Etc.estimateWeightedMeanNs, goTruncFloatToInt]
    norm_num
  · norm_num [specWeightedMeanNs]

/-- C4: `AddSuccess` appends to the successes list as claimed, but
`AddFailure` (rate.go line 111) assigns `append(e.failures, d)` to the
`successes` field: at the state with successes `[1]` and failures `[]`,
`AddFailure 2` leaves the failures list empty and replaces the successes list
with `[2]`, destroying the recorded success — contradicting both halves of the
claim (append to failures; successes unchanged; append-only). -/
theorem c4_addFailure_clobbers_successes :
    (∀ e d, (Etc.AddSuccess e d).successes = e.successes ++ [d] ∧
      (Etc.AddSuccess e d).failures = e.failures) ∧
    (Etc.AddFailure ⟨10, 0, [1], []⟩ 2).successes = [2] ∧
    (Etc.AddFailure ⟨10, 0, [1], []⟩ 2).failures = [] := by
  exact ⟨fun e d => ⟨rfl, rfl⟩, rfl, rfl⟩

/-- One step changes the sum `Succeeded + Failed + Aborted` by one exactly on
`finish` and `renderFail` events. -/
theorem stepEvent_outcomeSum (s : Stats) (e : Event) :
    (stepEvent s e).Succeeded + (stepEvent s e).Failed + (stepEvent s e).Aborted =
      s.Succeeded + s.Failed + s.Aborted +
        (if e.isFinish then 1 else 0) + (if e.isRenderFail then 1 else 0) := by
  cases e with
  | finish o d =>
    cases o <;>
      simp [stepEvent, Stats.AddSucceeded, Stats.AddFailed, Stats.AddAborted,
        Event.isFinish, Event.isRenderFail] <;> ring
  | renderFail =>
    simp [stepEvent, Stats.AddFailed, Event.isFinish, Event.isRenderFail]
    ring
  | skip => simp [stepEvent, Event.isFinish, Event.isRenderFail]
  | enqueue => simp [stepEvent, Stats.AddQueued, Event.isFinish, Event.isRenderFail]
  | start now => simp [stepEvent, Stats.SubQueued, Event.isFinish, Event.isRenderFail]
  | interrupt now =>
    simp [stepEvent, stage1, Stats.ZeroQueued, Event.isFinish, Event.isRenderFail]

/-- Over a whole trace, `Succeeded + Failed + Aborted` grows by the number of
`finish` events plus the number of `renderFail` events. -/
theorem foldl_outcomeSum (t : List Event) (s : Stats) :
    (t.foldl stepEvent s).Succeeded + (t.foldl stepEvent s).Failed +
        (t.foldl stepEvent s).Aborted =
      s.Succeeded + s.Failed + s.Aborted +
        (t.countP Event.isFinish : ℤ) + (t.countP Event.isRenderFail : ℤ) := by
  induction t generalizing s with
  | nil => simp
  | cons e rest ih =>
    rw [List.foldl_cons, ih (stepEvent s e), List.countP_cons, List.countP_cons]
    have h := stepEvent_outcomeSum s e
    by_cases hf : e.isFinish <;> by_cases hr : e.isRenderFail <;>
      simp [hf, hr] at h ⊢ <;> omega

/-- Over a whole trace, `Skipped` grows by the number of `skip` events. -/
theorem foldl_Skipped (t : List Event) (s : Stats) :
    (t.foldl stepEvent s).Skipped = s.Skipped + (t.countP Event.isSkip : ℤ) := by
  induction t generalizing s with
  | nil => simp
  | cons e rest ih =>
    rw [List.foldl_cons, ih (stepEvent s e), List.countP_cons]
    have h : (stepEvent s e).Skipped = s.Skipped + (if e.isSkip then 1 else 0) := by
      cases e with
      | finish o d =>
        cases o <;>
          simp [stepEvent, Stats.AddSucceeded, Stats.AddFailed, Stats.AddAborted, Event.isSkip]
      | renderFail => simp [stepEvent, Stats.AddFailed, Event.isSkip]
      | skip => simp [stepEvent, Event.isSkip]
      | enqueue => simp [stepEvent, Stats.AddQueued, Event.isSkip]
      | start now => simp [stepEvent, Stats.SubQueued, Event.isSkip]
      | interrupt now => simp [stepEvent, stage1, Stats.ZeroQueued, Event.isSkip]
    by_cases hs : e.isSkip <;> simp [hs] at h ⊢ <;> omega

/-- Over a trace with no interrupt, `Total` grows by the number of `enqueue`
events. -/
theorem foldl_Total (t : List Event) (s : Stats)
    (hni : t.countP Event.isInterrupt = 0) :
    (t.foldl stepEvent s).Total = s.Total + (t.countP Event.isEnqueue : ℤ) := by
  induction t generalizing s with
  | nil => simp
  | cons e rest ih =>
    rw [List.countP_cons] at hni
    have hrest : rest.countP Event.isInterrupt = 0 := by omega
    have hne : e.isInterrupt = false := by
      by_cases h : e.isInterrupt <;> simp [h] at hni ⊢
    rw [List.foldl_cons, ih (stepEvent s e) hrest, List.countP_cons]
    have h : (stepEvent s e).Total = s.Total + (if e.isEnqueue then 1 else 0) := by
      cases e with
      | finish o d =>
        cases o <;>
          simp [stepEvent, Stats.AddSucceeded, Stats.AddFailed, Stats.AddAborted,
            Event.isEnqueue]
      | renderFail => simp [stepEvent, Stats.AddFailed, Event.isEnqueue]
      | skip => simp [stepEvent, Event.isEnqueue]
      | enqueue => simp [stepEvent, Stats.AddQueued, Event.isEnqueue]
      | start now => simp [stepEvent, Stats.SubQueued, Event.isEnqueue]
      | interrupt now => simp [Event.isInterrupt] at hne
    by_cases hq : e.isEnqueue <;> simp [hq] at h ⊢ <;> omega

/-- C2 (amended): at normal termination the outcome counters satisfy
`Succeeded + Failed + Aborted + Skipped = Total + Skipped + renderFailures`:
records skipped by the cache-dedup logic and records that fail template
rendering are never added to `Total` (run.go lines 174-229), so the spec's
equation `Succeeded + Failed + Aborted + Skipped = Total` holds exactly when
no record is skipped and none fails rendering. -/
theorem c2_counters_at_termination (c m t0 : ℤ) (t : List Event)
    (h : NormalTermination t) :
    (runEvents c m t0 t).Succeeded + (runEvents c m t0 t).Failed +
        (runEvents c m t0 t).Aborted + (runEvents c m t0 t).Skipped =
      (runEvents c m t0 t).Total + (runEvents c m t0 t).Skipped +
        (t.countP Event.isRenderFail : ℤ) := by
  obtain ⟨-, hni, hfe⟩ := h
  have h1 := foldl_outcomeSum t (NewStats c m t0)
  have h2 := foldl_Total t (NewStats c m t0) hni
  simp only [runEvents, NewStats] at h1 h2 ⊢
  rw [hfe] at h1
  omega

/-- Witness for C2's amended theorem: a concrete normally-terminating trace
with one executed record, one skipped record and one render failure. -/
theorem c2_counters_at_termination_witness :
    (runEvents 10 0 0 [.enqueue, .start 0, .finish .succeeded 1, .skip, .renderFail]).Succeeded +
        (runEvents 10 0 0 [.enqueue, .start 0, .finish .succeeded 1, .skip, .renderFail]).Failed +
        (runEvents 10 0 0 [.enqueue, .start 0, .finish .succeeded 1, .skip, .renderFail]).Aborted +
        (runEvents 10 0 0 [.enqueue, .start 0, .finish .succeeded 1, .skip, .renderFail]).Skipped =
      (runEvents 10 0 0 [.enqueue, .start 0, .finish .succeeded 1, .skip, .renderFail]).Total +
        (runEvents 10 0 0 [.enqueue, .start 0, .finish .succeeded 1, .skip, .renderFail]).Skipped +
        (([Event.enqueue, .start 0, .finish .succeeded 1, .skip,
            .renderFail].countP Event.isRenderFail : ℕ) : ℤ) :=
  c2_counters_at_termination 10 0 0
    [.enqueue, .start 0, .finish .succeeded 1, .skip, .renderFail]
    ⟨by decide, by decide, by decide⟩

/-- C2 (counterexample): the run consisting of a single record skipped by the
cache-dedup logic terminates normally with `Skipped = 1` and `Total = 0`, so
`Succeeded + Failed + Aborted + Skipped ≠ Total`. -/
theorem c2_claim_counterexample :
    NormalTermination [Event.skip] ∧
    ¬ ((runEvents 10 0 0 [Event.skip]).Succeeded + (runEvents 10 0 0 [Event.skip]).Failed +
        (runEvents 10 0 0 [Event.skip]).Aborted + (runEvents 10 0 0 [Event.skip]).Skipped =
        (runEvents 10 0 0 [Event.skip]).Total) := by
  refine ⟨⟨by decide, by decide, by decide⟩, by decide⟩

/-- C5: a record whose template fails to render makes the ingestor call
`stats.AddFailed(0)` (run.go line 182), which decrements `InProgress`
(worker.go line 127) even though the record never entered the in-progress
state: after a run whose only event is one render failure, `InProgress = -1`,
violating the claim that no counter is ever negative. -/
theorem c5_renderFail_drives_inProgress_negative :
    ValidTrace [Event.renderFail] ∧
    (runEvents 10 0 0 [Event.renderFail]).InProgress = -1 := by
  exact ⟨by decide, by decide⟩

/-- C8: the stage-1 interrupt action zeroes `Queued`, decrements `Total` by
exactly the prior value of `Queued`, reports the cancellation cause
"user-initiated shutdown", and leaves `InProgress`, `Succeeded`, `Failed`,
`Aborted` and `Skipped` unchanged. -/
theorem c8_stage1_zeroes_queued (s : Stats) (now : ℤ) :
    (stage1 s now).1.Queued = 0 ∧
    (stage1 s now).1.Total = s.Total - s.Queued ∧
    (stage1 s now).1.InProgress = s.InProgress ∧
    (stage1 s now).1.Succeeded = s.Succeeded ∧
    (stage1 s now).1.Failed = s.Failed ∧
    (stage1 s now).1.Aborted = s.Aborted ∧
    (stage1 s now).1.Skipped = s.Skipped ∧
    (stage1 s now).2 = "user-initiated shutdown" := by
  simp [stage1, Stats.ZeroQueued]

/-- The incremental hash writes of `Marker` concatenate to the spec's
preimage. -/
theorem markerStream_eq_spec (cmd : RenderedCommand) :
    markerStream cmd = specMarkerStream cmd := by
  have htab : strBytes "\t" = [9] := by decide
  have key : ∀ (args : List String) (acc : List ℕ),
      args.foldl (fun acc arg => acc ++ strBytes arg ++ strBytes "\t") acc =
        acc ++ (args.map (fun arg => strBytes arg ++ [9])).flatten := by
    intro args
    induction args with
    | nil => intro acc; simp
    | cons a rest ih =>
      intro acc
      rw [List.foldl_cons, ih]
      simp [htab, List.append_assoc]
  unfold markerStream specMarkerStream
  rw [key]
  by_cases h : cmd.input = "" <;> simp [h]

/-- C7: the marker is the lowercase hex encoding of the SHA-256 digest of the
spec's preimage (each argument followed by a tab, then the stdin payload when
nonempty), and two rendered commands with identical argument sequences and
identical stdin have byte-identical markers. -/
theorem c7_marker_format_and_determinism :
    (∀ cmd, Marker cmd = specMarker cmd) ∧
    (∀ c₁ c₂ : RenderedCommand, c₁.command = c₂.command → c₁.input = c₂.input →
      Marker c₁ = Marker c₂) := by
  constructor
  · intro cmd
    unfold Marker specMarker
    rw [markerStream_eq_spec]
  · intro c₁ c₂ hc hi
    have h : c₁ = c₂ := by
      cases c₁
      cases c₂
      simp_all
    rw [h]

/-- Witness for C7 at a concrete rendered command. -/
theorem c7_marker_format_and_determinism_witness :
    Marker ⟨["echo", "hi"], "x"⟩ = specMarker ⟨["echo", "hi"], "x"⟩ ∧
    Marker ⟨["echo", "hi"], "x"⟩ = Marker ⟨["echo", "hi"], "x"⟩ :=
  ⟨c7_marker_format_and_determinism.1 ⟨["echo", "hi"], "x"⟩,
    c7_marker_format_and_determinism.2 ⟨["echo", "hi"], "x"⟩ ⟨["echo", "hi"], "x"⟩ rfl rfl⟩

/-- C10: the marker is not injective — because each argument is followed by a
tab but the stdin payload is appended bare, the distinct commands
`x y` (empty stdin) and `x` (stdin `y<tab>`) hash the same byte stream
`x<tab>y<tab>` and therefore share one marker (cache-key aliasing). -/
theorem c10_marker_collision :
    (⟨["x", "y"], ""⟩ : RenderedCommand) ≠ (⟨["x"], "y\t"⟩ : RenderedCommand) ∧
    Marker ⟨["x", "y"], ""⟩ = Marker ⟨["x"], "y\t"⟩ := by
  constructor
  · decide
  · unfold Marker
    have h : markerStream ⟨["x", "y"], ""⟩ = markerStream ⟨["x"], "y\t"⟩ := by decide
    rw [h]

/-- C9: for the sampler holding exactly the samples (10 at `t0`) and (20 at
`t0 + 1 s`), `ETA` with `minSamples = 2` projects target 30 at `t0 + 2 s` and
target 40 at `t0 + 3 s` by linear extrapolation, returns the newest sample's
own timestamp for a target equal to its value, and errors for a target on the
wrong side of the increasing trend. -/
theorem c9_eta_linear_extrapolation (t0 : ℤ) :
    (((NewRate 4).Insert 10 t0).Insert 20 (t0 + 10 ^ 9)).ETA 2 30 =
      .ok (t0 + 2 * 10 ^ 9) ∧
    (((NewRate 4).Insert 10 t0).Insert 20 (t0 + 10 ^ 9)).ETA 2 40 =
      .ok (t0 + 3 * 10 ^ 9) ∧
    (((NewRate 4).Insert 10 t0).Insert 20 (t0 + 10 ^ 9)).ETA 2 20 =
      .ok (t0 + 10 ^ 9) ∧
    ∀ z, (((NewRate 4).Insert 10 t0).Insert 20 (t0 + 10 ^ 9)).ETA 2 5 ≠ .ok z := by
  have hstate : ((NewRate 4).Insert 10 t0).Insert 20 (t0 + 10 ^ 9) =
      { samples := [⟨10, t0⟩, ⟨20, t0 + 10 ^ 9⟩, ⟨0, 0⟩, ⟨0, 0⟩], capacity := 4
        oldest := 0, next := 2 } := rfl
  rw [hstate]
  have hper : (t0 + 10 ^ 9) - t0 = 10 ^ 9 := by ring
  refine ⟨?_, ?_, ?_, ?_⟩ <;>
    simp only [RateState.ETA, hper, goTruncFloatToInt] <;> norm_num <;> try omega
  intro z h
  exact Except.noConfusion h

/-- The reflexive lexicographic order is the complement of the btree's strict
order `lessUnsortedCommand` with the arguments swapped. -/
theorem leUC_iff_not_less (a b : UnsortedCommand) :
    leUC a b ↔ lessUnsortedCommand b a = false := by
  unfold leUC lessUnsortedCommand
  by_cases h : b.timestamp = a.timestamp <;> simp [h]
  omega

/-- Every item produced by the synthetic-timestamp assignment either carries a
fresh synthetic timestamp in `(m, m + zcount]` or is an unchanged item with a
nonzero (real) timestamp. -/
theorem assignTimestamps_mem_bounds (items : List UnsortedCommand) :
    ∀ (m : ℤ) (x : UnsortedCommand), x ∈ assignTimestamps m items →
      (m < x.timestamp ∧ x.timestamp ≤ m + (zcount items : ℤ)) ∨
        (x ∈ items ∧ x.timestamp ≠ 0) := by
  induction items with
  | nil => simp [assignTimestamps]
  | cons uc rest ih =>
    intro m x hx
    by_cases hz : uc.timestamp = 0
    · simp only [assignTimestamps, if_pos hz] at hx
      have hzc : (zcount (uc :: rest) : ℤ) = (zcount rest : ℤ) + 1 := by
        simp [zcount, List.countP_cons, hz]
      rcases List.mem_cons.mp hx with h | h
      · subst h
        left
        refine ⟨by simp, ?_⟩
        rw [hzc]
        simp
      · rcases ih (m + 1) x h with ⟨h1, h2⟩ | h2
        · left
          rw [hzc]
          omega
        · exact Or.inr ⟨List.mem_cons_of_mem _ h2.1, h2.2⟩
    · simp only [assignTimestamps, if_neg hz] at hx
      have hzc : (zcount (uc :: rest) : ℤ) = (zcount rest : ℤ) := by
        simp [zcount, List.countP_cons, hz]
      rcases List.mem_cons.mp hx with h | h
      · subst h
        exact Or.inr ⟨List.mem_cons_self _ _, hz⟩
      · rcases ih m x h with ⟨h1, h2⟩ | h2
        · left
          rw [hzc]
          omega
        · exact Or.inr ⟨List.mem_cons_of_mem _ h2.1, h2.2⟩

/-- When every real timestamp clears the synthetic band `(m, m + zcount]`, the
synthetic timestamps (selected by the band) are strictly increasing in
insertion order. -/
theorem assignTimestamps_filter_increasing (items : List UnsortedCommand) :
    ∀ m : ℤ, (∀ uc ∈ items, uc.timestamp = 0 ∨ m + (zcount items : ℤ) < uc.timestamp) →
      ((assignTimestamps m items).filter
          (fun x => decide (x.timestamp ≤ m + (zcount items : ℤ)))).Pairwise
        (fun a b => a.timestamp < b.timestamp) := by
  induction items with
  | nil => simp [assignTimestamps]
  | cons uc rest ih =>
    intro m hh
    by_cases hz : uc.timestamp = 0
    · have hzc : (zcount (uc :: rest) : ℤ) = (zcount rest : ℤ) + 1 := by
        simp [zcount, List.countP_cons, hz]
      have hbound : m + (zcount (uc :: rest) : ℤ) = (m + 1) + (zcount rest : ℤ) := by
        rw [hzc]
        ring
      simp only [assignTimestamps, if_pos hz, List.filter_cons]
      have hkeep : (decide (({ uc with timestamp := m + 1 } : UnsortedCommand).timestamp ≤
          m + (zcount (uc :: rest) : ℤ))) = true := by
        rw [hbound]
        simp
      rw [if_pos hkeep]
      constructor
      · intro b hb
        have hb' := List.mem_filter.mp hb
        have hble : b.timestamp ≤ m + (zcount (uc :: rest) : ℤ) := by
          simpa using hb'.2
        rcases assignTimestamps_mem_bounds rest (m + 1) b hb'.1 with ⟨h1, _⟩ | ⟨hmem, hnz⟩
        · simpa using h1
        · rcases hh b (List.mem_cons_of_mem _ hmem) with h0 | hbig
          · exact absurd h0 hnz
          · omega
      · rw [hbound]
        apply ih (m + 1)
        intro v hv
        rcases hh v (List.mem_cons_of_mem _ hv) with h0 | hbig
        · exact Or.inl h0
        · right
          rw [hbound] at hbig
          exact hbig
    · have hzc : (zcount (uc :: rest) : ℤ) = (zcount rest : ℤ) := by
        simp [zcount, List.countP_cons, hz]
      simp only [assignTimestamps, if_neg hz, List.filter_cons]
      have hdrop : (decide (uc.timestamp ≤ m + (zcount (uc :: rest) : ℤ))) = false := by
        rcases hh uc (List.mem_cons_self _ _) with h0 | hbig
        · exact absurd h0 hz
        · simp
          omega
      rw [if_neg (by simp [hdrop])]
      rw [hzc]
      apply ih m
      intro v hv
      rcases hh v (List.mem_cons_of_mem _ hv) with h0 | hbig
      · exact Or.inl h0
      · right
        rw [hzc] at hbig
        exact hbig

/-- When every input timestamp is zero (DeferReruns off zeroes them at run.go
lines 216-219), the assignment yields strictly increasing timestamps above
`m`, preserving the command order. -/
theorem assignTimestamps_allzero (items : List UnsortedCommand) :
    ∀ m : ℤ, (∀ uc ∈ items, uc.timestamp = 0) →
      (assignTimestamps m items).Pairwise (fun a b => a.timestamp < b.timestamp) ∧
      (assignTimestamps m items).map UnsortedCommand.command =
        items.map UnsortedCommand.command ∧
      ∀ x ∈ assignTimestamps m items, m < x.timestamp := by
  induction items with
  | nil => simp [assignTimestamps]
  | cons uc rest ih =>
    intro m hz
    have hz0 : uc.timestamp = 0 := hz uc (List.mem_cons_self _ _)
    have hzr : ∀ v ∈ rest, v.timestamp = 0 := fun v hv => hz v (List.mem_cons_of_mem _ hv)
    obtain ⟨ih1, ih2, ih3⟩ := ih (m + 1) hzr
    simp only [assignTimestamps, if_pos hz0]
    refine ⟨?_, ?_, ?_⟩
    · constructor
      · intro b hb
        have := ih3 b hb
        simp
        omega
      · exact ih1
    · simp [ih2]
    · intro x hx
      rcases List.mem_cons.mp hx with h | h
      · subst h
        simp
      · have := ih3 x h
        omega

/-- In a `leUC`-sorted list, everything surviving `dropWhile P` fails `P`
whenever `P` is downward closed along the order. -/
theorem pairwise_dropWhile_not (P : UnsortedCommand → Bool)
    (hmono : ∀ a b, leUC a b → P b = true → P a = true) :
    ∀ l : List UnsortedCommand, l.Pairwise leUC → ∀ y ∈ l.dropWhile P, P y = false := by
  intro l
  induction l with
  | nil => simp
  | cons x xs ih =>
    intro hp y hy
    by_cases hx : P x = true
    · rw [List.dropWhile_cons, if_pos hx] at hy
      exact ih (List.Pairwise.of_cons hp) y hy
    · rw [List.dropWhile_cons, if_neg hx] at hy
      rcases List.mem_cons.mp hy with h | h
      · subst h
        exact Bool.not_eq_true _ ▸ Bool.of_not_eq_true hx
      · by_cases hys : P y = true
        · exact absurd (hmono x y ((List.pairwise_cons.mp hp).1 y h) hys) hx
        · exact Bool.of_not_eq_true hys

/-- C6: the sorter hands items to workers in `(timestamp asc, index asc)`
order (the order `lessUnsortedCommand` keys the btree with): the delivered
sequence is a `leUC`-sorted permutation of the input after synthetic-timestamp
assignment; when every real cache mtime clears the synthetic band, never-run
items carry strictly increasing positive synthetic timestamps and are all
delivered before every item with a real mtime; and when all timestamps are
zeroed (DeferReruns off) the delivery is exactly the insertion order. -/
theorem c6_delivery_order (items : List UnsortedCommand) :
    (∀ a b, leUC a b ↔ lessUnsortedCommand b a = false) ∧
    (sorterDeliver items).Pairwise leUC ∧
    (sorterDeliver items).Perm (assignTimestamps 0 items) ∧
    ((∀ uc ∈ items, uc.timestamp = 0 ∨ (zcount items : ℤ) < uc.timestamp) →
      (((assignTimestamps 0 items).filter
          (fun x => decide (x.timestamp ≤ (zcount items : ℤ)))).Pairwise
        (fun a b => a.timestamp < b.timestamp) ∧
      ∃ l₁ l₂, sorterDeliver items = l₁ ++ l₂ ∧
        (∀ x ∈ l₁, 0 < x.timestamp ∧ x.timestamp ≤ (zcount items : ℤ)) ∧
        (∀ y ∈ l₂, (zcount items : ℤ) < y.timestamp))) ∧
    ((∀ uc ∈ items, uc.timestamp = 0) →
      (sorterDeliver items).map UnsortedCommand.command =
        items.map UnsortedCommand.command) := by
  have hsorted : (sorterDeliver items).Pairwise leUC :=
    List.sorted_insertionSort leUC (assignTimestamps 0 items)
  have hperm : (sorterDeliver items).Perm (assignTimestamps 0 items) :=
    List.perm_insertionSort leUC (assignTimestamps 0 items)
  refine ⟨leUC_iff_not_less, hsorted, hperm, ?_, ?_⟩
  · intro hh
    have hh0 : ∀ uc ∈ items, uc.timestamp = 0 ∨ (0 : ℤ) + (zcount items : ℤ) < uc.timestamp := by
      simpa using hh
    constructor
    · have := assignTimestamps_filter_increasing items 0 hh0
      simpa using this
    · refine ⟨(sorterDeliver items).takeWhile (fun x => decide (x.timestamp ≤ (zcount items : ℤ))),
        (sorterDeliver items).dropWhile (fun x => decide (x.timestamp ≤ (zcount items : ℤ))),
        (List.takeWhile_append_dropWhile _ _).symm, ?_, ?_⟩
      · intro x hx
        have hPx : x.timestamp ≤ (zcount items : ℤ) := by
          simpa using List.mem_takeWhile_imp hx
        have hxd : x ∈ sorterDeliver items :=
          (List.takeWhile_sublist _).mem hx
        have hxa : x ∈ assignTimestamps 0 items := hperm.mem_iff.mp hxd
        rcases assignTimestamps_mem_bounds items 0 x hxa with ⟨h1, h2⟩ | ⟨hmem, hnz⟩
        · exact ⟨h1, hPx⟩
        · rcases hh x hmem with h0 | hbig
          · exact absurd h0 hnz
          · omega
      · intro y hy
        have hPy := pairwise_dropWhile_not
          (fun x => decide (x.timestamp ≤ (zcount items : ℤ)))
          (fun a b hab hb => by
            simp only [decide_eq_true_eq] at hb ⊢
            unfold leUC at hab
            omega)
          (sorterDeliver items) hsorted y hy
        simpa using hPy
  · intro hz
    obtain ⟨h1, h2, _⟩ := assignTimestamps_allzero items 0 hz
    have hs : (assignTimestamps 0 items).Pairwise leUC :=
      h1.imp (fun h => Or.inl h)
    unfold sorterDeliver
    rw [List.Sorted.insertionSort_eq hs]
    exact h2

/-- Witness for C6 at concrete inputs: one real-mtime item followed by one
never-run item (never-run delivered first), and a two-item all-zero input
delivered in insertion order. -/
theorem c6_delivery_order_witness :
    (((assignTimestamps 0 [⟨⟨["a"], ""⟩, 5, 1⟩, ⟨⟨["b"], ""⟩, 0, 2⟩]).filter
          (fun x => decide (x.timestamp ≤
            (zcount [⟨⟨["a"], ""⟩, 5, 1⟩, ⟨⟨["b"], ""⟩, 0, 2⟩] : ℤ)))).Pairwise
        (fun a b => a.timestamp < b.timestamp) ∧
      (∃ l₁ l₂, sorterDeliver [⟨⟨["a"], ""⟩, 5, 1⟩, ⟨⟨["b"], ""⟩, 0, 2⟩] = l₁ ++ l₂ ∧
        (∀ x ∈ l₁, 0 < x.timestamp ∧ x.timestamp ≤
          (zcount [⟨⟨["a"], ""⟩, 5, 1⟩, ⟨⟨["b"], ""⟩, 0, 2⟩] : ℤ)) ∧
        (∀ y ∈ l₂,
          (zcount [⟨⟨["a"], ""⟩, 5, 1⟩, ⟨⟨["b"], ""⟩, 0, 2⟩] : ℤ) < y.timestamp))) ∧
    (sorterDeliver [⟨⟨["c"], ""⟩, 0, 1⟩, ⟨⟨["d"], ""⟩, 0, 2⟩]).map
        UnsortedCommand.command =
      [⟨⟨["c"], ""⟩, 0, 1⟩, ⟨⟨["d"], ""⟩, 0, 2⟩].map UnsortedCommand.command :=
  ⟨(c6_delivery_order [⟨⟨["a"], ""⟩, 5, 1⟩, ⟨⟨["b"], ""⟩, 0, 2⟩]).2.2.2.1 (by decide),
    (c6_delivery_order [⟨⟨["c"], ""⟩, 0, 1⟩, ⟨⟨["d"], ""⟩, 0, 2⟩]).2.2.2.2 (by decide)⟩

end Parallel
